import Mathlib

/-!
Verification of the OmenkaApp document-state and synchronization engine.

The TypeScript source is shallowly embedded: nondeterministic inputs of the
code (`new Date().toISOString()`, the random id generator, the browser
storage, the network) become explicit parameters, and the React state
updates become pure functions on explicit state records.
-/

namespace Omenka

/-- The block type enum from `src/lib/types.ts` (`BlockType`). -/
inductive BlockType where
  | sceneHeading
  | action
  | character
  | parenthetical
  | dialogue
  | transition
  | shot
deriving DecidableEq, Repr

/-- Enum `CountryContext` from `src/lib/types.ts`. -/
inductive CountryContext where
  | Nigeria
  | SierraLeone
deriving DecidableEq, Repr

/-- Structure `ScriptBlock` from `src/lib/types.ts`. -/
structure ScriptBlock where
  id : String
  type : BlockType
  content : String
deriving DecidableEq, Repr

/-- Structure `ScriptMetadata` from `src/lib/types.ts`; `logline?` is optional. -/
structure ScriptMetadata where
  title : String
  author : String
  draftDate : String
  country : CountryContext
  logline : Option String
deriving DecidableEq, Repr

/-- Structure `ScriptProject` from `src/lib/types.ts`. -/
structure ScriptProject where
  id : String
  metadata : ScriptMetadata
  content : List ScriptBlock
  lastModifiedISO : String
deriving DecidableEq, Repr

/-- Function `nextType` from `EditorScreen.tsx`: the successor-type policy used when a
new block is inserted after an existing one. The `default` arm of the
TypeScript `switch` covers `action`, `shot` (and any other value). -/
def nextType : BlockType → BlockType
  | .sceneHeading => .action
  | .character => .dialogue
  | .parenthetical => .dialogue
  | .dialogue => .character
  | .transition => .sceneHeading
  | _ => .action

/-- Function `makeDefaultProject` from `EditorScreen.tsx`. The random ids produced by
`id()` and the clock readings (`toLocaleDateString`, `toISOString`) are
passed in as `pid`, `bid`, `dateStr`, `now`. -/
def makeDefaultProject (pid bid dateStr now : String) : ScriptProject :=
  { id := pid
    metadata :=
      { title := "UNTITLED SCREENPLAY"
        author := "Omenka Writer"
        draftDate := dateStr
        country := .Nigeria
        logline := none }
    content := [{ id := bid, type := .sceneHeading, content := "INT. LIVING ROOM - DAY" }]
    lastModifiedISO := now }

/-- Function `updateBlock` from `EditorScreen.tsx` (the engine variant): replaces the
content of the block whose id matches, and stamps `lastModifiedISO := now`
unconditionally (the spread object is built with the fresh timestamp whether
or not any block matched). -/
def updateBlock (now blockId newContent : String) (p : ScriptProject) : ScriptProject :=
  { p with
    lastModifiedISO := now
    content := p.content.map fun b =>
      if b.id == blockId then { b with content := newContent } else b }

/-- Insertion of a fresh empty block directly after the first block whose id
is `afterId`; the new block's type is `nextType` of that block's type. This
is the `splice(idx + 1, 0, newBlock)` of `addBlockAfter` where `idx` is the
first matching index (`findIndex`). -/
def insertAfterId (newId afterId : String) : List ScriptBlock → List ScriptBlock
  | [] => []
  | b :: rest =>
    if b.id == afterId then
      b :: { id := newId, type := nextType b.type, content := "" } :: rest
    else
      b :: insertAfterId newId afterId rest

/-- Function `addBlockAfter` from `EditorScreen.tsx` (the engine variant, which guards
`idx === -1` and returns the project unchanged when `afterId` is absent).
`findIndex` succeeds exactly when some block's id matches (`List.any`), and
the splice at `idx + 1` is `insertAfterId` at the first match. -/
def addBlockAfter (now newId afterId : String) (p : ScriptProject) : ScriptProject :=
  if p.content.any (fun b => b.id == afterId) then
    { p with
      lastModifiedISO := now
      content := insertAfterId newId afterId p.content }
  else p

/-- Function `removeBlock` from `EditorScreen.tsx`: refuses to remove when the project
has at most one block; otherwise filters the id out and stamps the
timestamp. -/
def removeBlock (now blockId : String) (p : ScriptProject) : ScriptProject :=
  if p.content.length ≤ 1 then p
  else
    { p with
      lastModifiedISO := now
      content := p.content.filter fun b => b.id != blockId }

/-- The title `onChange` handler of `EditorScreen.tsx`: replaces
`metadata.title` only; notably it does not touch `lastModifiedISO`. -/
def updateMetadataTitle (value : String) (p : ScriptProject) : ScriptProject :=
  { p with metadata := { p.metadata with title := value } }

/-- A sample block used for concrete witnesses and counterexamples. -/
def sampleBlock : ScriptBlock :=
  { id := "b1", type := .sceneHeading, content := "INT. LIVING ROOM - DAY" }

/-- A sample one-block project used for concrete witnesses and
counterexamples. -/
def sampleProject : ScriptProject :=
  { id := "p1"
    metadata :=
      { title := "UNTITLED SCREENPLAY"
        author := "Omenka Writer"
        draftDate := "1/1/2024"
        country := .Nigeria
        logline := none }
    content := [sampleBlock]
    lastModifiedISO := "2024-01-01T00:00:00.000Z" }

/-- The state the initial-load effect of `EditorScreen.tsx` leaves behind:
the `projects` list, the `activeId` selection, and the `loading` flag. -/
structure LoadedState where
  projects : List ScriptProject
  activeId : Option String
  loading : Bool
deriving DecidableEq, Repr

/-- The initial-load effect of `EditorScreen.tsx`. `remote` is the outcome of
`listProjects(user.uid)` (`Except.error` = transport failure). When the
remote list is nonempty it is adopted with its first element active; when it
is empty the local cache is used, or one default project is synthesized.
When `listProjects` throws, the `catch` only logs: `projects` keeps its
initial `[]` and `activeId` its initial `null`; the `finally` still sets
`loading` to `false` in every path. -/
def initialLoad (remote : Except String (List ScriptProject))
    (localCache : List ScriptProject) (defaultProject : ScriptProject) : LoadedState :=
  match remote with
  | .ok (p :: rest) =>
    { projects := p :: rest, activeId := some p.id, loading := false }
  | .ok [] =>
    match localCache with
    | q :: qs => { projects := q :: qs, activeId := some q.id, loading := false }
    | [] =>
      { projects := [defaultProject], activeId := some defaultProject.id, loading := false }
  | .error _ => { projects := [], activeId := none, loading := false }

/-- The save-status sub-state of the engine (`saveStatus` in
`EditorScreen.tsx`). -/
inductive SaveStatus where
  | idle
  | saving
  | saved
  | error
deriving DecidableEq, Repr

/-- The in-memory engine state of `EditorScreen.tsx` relevant to project
lifecycle actions. -/
structure EngineState where
  projects : List ScriptProject
  activeId : Option String
  saveStatus : SaveStatus
deriving DecidableEq, Repr

/-- The `active` memo of `EditorScreen.tsx`:
`projects.find((p) => p.id === activeId) || projects[0]`, or `null` when the
collection is empty. -/
def activeProject (st : EngineState) : Option ScriptProject :=
  match st.projects with
  | [] => none
  | p0 :: _ =>
    match st.projects.find? (fun p => some p.id == st.activeId) with
    | some p => some p
    | none => some p0

/-- The observable outcome of `deleteCurrentProject`: the engine state after
the synchronous updates, the project id passed to the remote `remove` call
(if one was dispatched), and whether the awaited `removeProject` promise was
left rejected (there is no `catch` around it in the source). -/
structure DeleteOutcome where
  state : EngineState
  removeDispatched : Option String
  rejectionUnhandled : Bool
deriving DecidableEq, Repr

/-- Action `deleteCurrentProject` from `EditorScreen.tsx`. `confirmed` is the result
of the `window.confirm` boundary prompt; `removeOk` is whether the remote
`removeProject` call succeeds. The new `activeId` is computed from the
pre-delete `projects` list: the first project with a different id, with the
JS `?.id || null` coercion sending an empty-string id to `null`. The
`saveStatus` field is never written by this action. -/
def deleteCurrentProject (st : EngineState) (confirmed removeOk : Bool) : DeleteOutcome :=
  match activeProject st with
  | none => { state := st, removeDispatched := none, rejectionUnhandled := false }
  | some active =>
    if confirmed then
      let idToDelete := active.id
      let newActive : Option String :=
        match st.projects.find? (fun p => p.id != idToDelete) with
        | some p => if p.id = "" then none else some p.id
        | none => none
      { state :=
          { projects := st.projects.filter (fun p => p.id != idToDelete)
            activeId := newActive
            saveStatus := st.saveStatus }
        removeDispatched := some idToDelete
        rejectionUnhandled := !removeOk }
    else { state := st, removeDispatched := none, rejectionUnhandled := false }

/-- One scheduled timer of `useDebouncedEffect` (`src/lib/useDebouncedEffect.ts`):
the time at which the pending `setTimeout` fires and the project state its
effect closure would `upsert`. -/
abbrev PendingTimer := Nat × ScriptProject

/-- Timer semantics of `useDebouncedEffect` applied to the debounced-commit
effect of `EditorScreen.tsx`. Each event `(t, a)` is a change of the active
project to state `a` at time `t`; the cleanup `clearTimeout` cancels the
pending timer if it has not yet fired (`t < fireTime`), and a new timer is
set for `t + delayMs` carrying the new state. A pending timer that was
already due (`fireTime ≤ t`) has fired, dispatching its payload. After the
last event, the remaining timer fires. The result is the ordered list of
`upsertProject` payloads dispatched. -/
def debounceSteps (delayMs : Nat) (pending : Option PendingTimer) :
    List (Nat × ScriptProject) → List ScriptProject
  | [] =>
    match pending with
    | none => []
    | some (_, a) => [a]
  | (t, a) :: rest =>
    match pending with
    | none => debounceSteps delayMs (some (t + delayMs, a)) rest
    | some (fireTime, prev) =>
      if fireTime ≤ t then prev :: debounceSteps delayMs (some (t + delayMs, a)) rest
      else debounceSteps delayMs (some (t + delayMs, a)) rest

/-- Running the debounce machinery from an empty pending slot. -/
def debounceRun (delayMs : Nat) (events : List (Nat × ScriptProject)) : List ScriptProject :=
  debounceSteps delayMs none events

/-- Predicate `withinQuiet delayMs prev events` states that the events happen in time
order and that each arrives strictly before the timer scheduled by the
previous one (at `prev + delayMs`) can fire: the whole burst sits inside one
quiet window. -/
def withinQuiet (delayMs : Nat) : Nat → List (Nat × ScriptProject) → Bool
  | _, [] => true
  | prev, (t, _) :: rest => (prev ≤ t && t < prev + delayMs) && withinQuiet delayMs t rest

/-- Structure `AIRequest` from `src/lib/aiClient.ts`. -/
structure AIRequest where
  moduleId : String
  systemInstruction : String
  moduleInstruction : String
  payload : String
deriving DecidableEq, Repr

/-- The value `runAI` resolves with: `{ text: string; disabled?: boolean }`
(`disabled` absent on the network path, which the caller reads as false). -/
structure AIResponse where
  text : String
  disabled : Bool
deriving DecidableEq, Repr

/-- The possible outcomes of the `fetch("/api/ai", ...)` call: a transport
error (the promise rejects), a non-ok HTTP response with a body text, or an
ok response whose JSON body carries `text`. -/
inductive FetchOutcome where
  | transportFailure (msg : String)
  | httpFailure (status : Nat) (body : String)
  | success (text : String)
deriving DecidableEq, Repr

/-- A dispatched network request, recorded so theorems can count calls. -/
structure NetworkCall where
  url : String
  body : AIRequest
deriving DecidableEq, Repr

/-- Function `runAI` from `src/lib/aiClient.ts`. `aiEnabled` is the
`REACT_APP_AI_ENABLED === "true"` feature flag; `net` is the network oracle
answering the single `fetch`. Returns the resolved/rejected result together
with the list of network calls issued. With the flag off it returns the
disabled result without consulting `net`. A non-ok response rejects with the
body text, or with `HTTP <status>` when that text is empty. -/
def runAI (aiEnabled : Bool) (net : AIRequest → FetchOutcome) (req : AIRequest) :
    Except String AIResponse × List NetworkCall :=
  if !aiEnabled then
    (.ok { text := "AI is disabled in this environment.", disabled := true }, [])
  else
    match net req with
    | .transportFailure msg => (.error msg, [{ url := "/api/ai", body := req }])
    | .httpFailure status body =>
      (.error (if body = "" then "HTTP " ++ toString status else body),
        [{ url := "/api/ai", body := req }])
    | .success text =>
      (.ok { text := text, disabled := false }, [{ url := "/api/ai", body := req }])

/-- Structural JSON values, the result of the browser's `JSON.parse` (only
the constructors this data model produces are needed). -/
inductive Json where
  | str (s : String)
  | arr (elems : List Json)
  | obj (fields : List (String × Json))

/-- The string the source writes for each `BlockType` value. -/
def blockTypeString : BlockType → String
  | .sceneHeading => "scene-heading"
  | .action => "action"
  | .character => "character"
  | .parenthetical => "parenthetical"
  | .dialogue => "dialogue"
  | .transition => "transition"
  | .shot => "shot"

/-- Reading a `BlockType` back from its serialized string. -/
def blockTypeOfString (s : String) : Option BlockType :=
  if s = "scene-heading" then some .sceneHeading
  else if s = "action" then some .action
  else if s = "character" then some .character
  else if s = "parenthetical" then some .parenthetical
  else if s = "dialogue" then some .dialogue
  else if s = "transition" then some .transition
  else if s = "shot" then some .shot
  else none

/-- The string for each `CountryContext` value. -/
def countryString : CountryContext → String
  | .Nigeria => "Nigeria"
  | .SierraLeone => "Sierra Leone"

/-- Reading a `CountryContext` back from its serialized string. -/
def countryOfString (s : String) : Option CountryContext :=
  if s = "Nigeria" then some .Nigeria
  else if s = "Sierra Leone" then some .SierraLeone
  else none

/-- The JSON object `JSON.stringify` produces for a `ScriptBlock`. -/
def encodeBlock (b : ScriptBlock) : Json :=
  .obj [("id", .str b.id), ("type", .str (blockTypeString b.type)),
        ("content", .str b.content)]

/-- Reading a `ScriptBlock` from the parsed JSON value (the typed view the
editor takes of `JSON.parse`'s output after the `as ScriptProject[]` cast). -/
def decodeBlock : Json → Option ScriptBlock
  | .obj fields =>
    match fields.lookup "id", fields.lookup "type", fields.lookup "content" with
    | some (.str i), some (.str t), some (.str c) =>
      match blockTypeOfString t with
      | some bt => some { id := i, type := bt, content := c }
      | none => none
    | _, _, _ => none
  | _ => none

/-- The JSON object for a `ScriptMetadata`; an absent `logline` is omitted by
`JSON.stringify`, so the key is only present when the field is set. -/
def encodeMetadata (m : ScriptMetadata) : Json :=
  .obj ([("title", .str m.title), ("author", .str m.author),
         ("draftDate", .str m.draftDate), ("country", .str (countryString m.country))] ++
        (match m.logline with
         | some s => [("logline", .str s)]
         | none => []))

/-- Reading a `ScriptMetadata` from the parsed JSON value. -/
def decodeMetadata : Json → Option ScriptMetadata
  | .obj fields =>
    match fields.lookup "title", fields.lookup "author",
        fields.lookup "draftDate", fields.lookup "country" with
    | some (.str ti), some (.str au), some (.str dr), some (.str co) =>
      match countryOfString co with
      | some c =>
        some { title := ti, author := au, draftDate := dr, country := c
               logline :=
                 match fields.lookup "logline" with
                 | some (.str s) => some s
                 | _ => none }
      | none => none
    | _, _, _, _ => none
  | _ => none

/-- The JSON object for a `ScriptProject`. -/
def encodeProject (p : ScriptProject) : Json :=
  .obj [("id", .str p.id), ("metadata", encodeMetadata p.metadata),
        ("content", .arr (p.content.map encodeBlock)),
        ("lastModifiedISO", .str p.lastModifiedISO)]

/-- Reading the block array of a project back element by element. -/
def decodeBlocks : List Json → Option (List ScriptBlock)
  | [] => some []
  | j :: rest =>
    match decodeBlock j, decodeBlocks rest with
    | some b, some bs => some (b :: bs)
    | _, _ => none

/-- Reading a `ScriptProject` from the parsed JSON value. -/
def decodeProject : Json → Option ScriptProject
  | .obj fields =>
    match fields.lookup "id", fields.lookup "metadata",
        fields.lookup "content", fields.lookup "lastModifiedISO" with
    | some (.str i), some mj, some (.arr bs), some (.str lm) =>
      match decodeMetadata mj, decodeBlocks bs with
      | some m, some blocks =>
        some { id := i, metadata := m, content := blocks, lastModifiedISO := lm }
      | _, _ => none
    | _, _, _, _ => none
  | _ => none

/-- Reading the stored project array back element by element. -/
def decodeProjects : List Json → Option (List ScriptProject)
  | [] => some []
  | j :: rest =>
    match decodeProject j, decodeProjects rest with
    | some p, some ps => some (p :: ps)
    | _, _ => none

/-- The storage key of `src/lib/storage.ts`. -/
def storageKey : String := "omenka.projects.v1"

/-- Browser `localStorage`, modelled at the granularity the repository uses it: a map
from keys to the parsed form of the stored JSON string. `getItem` of a key
returns the last payload written under it. -/
def Store := String → Option Json

/-- Function `saveProjects` from `src/lib/storage.ts`:
`localStorage.setItem(KEY, JSON.stringify(projects))`. -/
def saveProjects (st : Store) (projects : List ScriptProject) : Store :=
  fun k => if k = storageKey then some (.arr (projects.map encodeProject)) else st k

/-- Function `loadProjects` from `src/lib/storage.ts`: absent key gives `[]`; a parsed
payload that is not an array gives `[]` (`Array.isArray` check); a parse or
shape failure gives `[]` (the `catch`); otherwise the stored projects are
returned. -/
def loadProjects (st : Store) : List ScriptProject :=
  match st storageKey with
  | none => []
  | some (.arr elems) =>
    match decodeProjects elems with
    | some ps => ps
    | none => []
  | some _ => []

/-! ## Helper lemmas -/

theorem map_update_eq_self (x t : String) (l : List ScriptBlock)
    (hx : ∀ b ∈ l, b.id ≠ x) :
    (l.map fun b => if b.id == x then { b with content := t } else b) = l := by
  induction l with
  | nil => rfl
  | cons b rest ih =>
    have hb : b.id ≠ x := hx b (List.mem_cons_self b rest)
    have hrest := ih fun c hc => hx c (List.mem_cons_of_mem _ hc)
    rw [List.map_cons, if_neg (by simp [hb]), hrest]

theorem any_id_eq_false (x : String) (l : List ScriptBlock)
    (hx : ∀ b ∈ l, b.id ≠ x) : (l.any fun b => b.id == x) = false := by
  induction l with
  | nil => rfl
  | cons b rest ih =>
    have hb : (b.id == x) = false :=
      beq_eq_false_iff_ne.mpr (hx b (List.mem_cons_self b rest))
    simp [List.any_cons, hb, ih fun c hc => hx c (List.mem_cons_of_mem _ hc)]

theorem filter_ne_id_eq_self (x : String) (l : List ScriptBlock)
    (hx : ∀ b ∈ l, b.id ≠ x) : (l.filter fun b => b.id != x) = l :=
  List.filter_eq_self.mpr fun b hb => bne_iff_ne.mpr (hx b hb)

/-! ## Claims -/

/-- C1: for every project with exactly one block, `removeBlock` at that
block's id returns the project unchanged — removal of the last block is
refused, so a document never reaches zero blocks. -/
theorem removeBlock_last_block_refused (now : String) (p : ScriptProject)
    (b : ScriptBlock) (h : p.content = [b]) : removeBlock now b.id p = p := by
  simp [removeBlock, h]

theorem removeBlock_last_block_refused_witness :
    removeBlock "2024-01-02T00:00:00.000Z" sampleBlock.id sampleProject = sampleProject :=
  removeBlock_last_block_refused "2024-01-02T00:00:00.000Z" sampleProject sampleBlock rfl

/-- C2 counterexample: `updateBlock` at an id absent from the project does
not return the project unchanged — it restamps `lastModifiedISO` even though
no block matched. -/
theorem updateBlock_missing_id_not_unchanged :
    ¬ updateBlock "2024-01-02T00:00:00.000Z" "zz" "t" sampleProject = sampleProject := by
  decide

/-- C2 (amended): for an id `x` absent from the project, `addBlockAfter`
returns the project exactly unchanged; `updateBlock` returns the project
with only `lastModifiedISO` restamped; `removeBlock` returns the project
exactly unchanged when it has at most one block and with only
`lastModifiedISO` restamped otherwise. All three are total functions. -/
theorem missing_id_noop_up_to_timestamp (now newId x t : String) (p : ScriptProject)
    (hx : ∀ b ∈ p.content, b.id ≠ x) :
    updateBlock now x t p = { p with lastModifiedISO := now }
    ∧ addBlockAfter now newId x p = p
    ∧ removeBlock now x p =
        if p.content.length ≤ 1 then p else { p with lastModifiedISO := now } := by
  refine ⟨?_, ?_, ?_⟩
  · unfold updateBlock
    rw [map_update_eq_self x t p.content hx]
  · unfold addBlockAfter
    rw [any_id_eq_false x p.content hx]
    rfl
  · unfold removeBlock
    rw [filter_ne_id_eq_self x p.content hx]

theorem missing_id_noop_up_to_timestamp_witness :
    updateBlock "2024-01-02T00:00:00.000Z" "zz" "t" sampleProject
        = { sampleProject with lastModifiedISO := "2024-01-02T00:00:00.000Z" }
    ∧ addBlockAfter "2024-01-02T00:00:00.000Z" "nb" "zz" sampleProject = sampleProject
    ∧ removeBlock "2024-01-02T00:00:00.000Z" "zz" sampleProject =
        if sampleProject.content.length ≤ 1 then sampleProject
        else { sampleProject with lastModifiedISO := "2024-01-02T00:00:00.000Z" } :=
  missing_id_noop_up_to_timestamp "2024-01-02T00:00:00.000Z" "nb" "zz" "t"
    sampleProject (by decide)

/-- C3: initial load adopts a nonempty remote list verbatim with its first
element active; with an empty remote list it adopts the nonempty local
cache with its first element active; with both empty it synthesizes exactly
one default project, which contains a single scene-heading block. -/
theorem initialLoad_cases (p q d : ScriptProject)
    (rest qs localCache : List ScriptProject) (pid bid dateStr now : String) :
    initialLoad (.ok (p :: rest)) localCache d
        = { projects := p :: rest, activeId := some p.id, loading := false }
    ∧ initialLoad (.ok []) (q :: qs) d
        = { projects := q :: qs, activeId := some q.id, loading := false }
    ∧ initialLoad (.ok []) [] (makeDefaultProject pid bid dateStr now)
        = { projects := [makeDefaultProject pid bid dateStr now]
            activeId := some pid
            loading := false }
    ∧ (makeDefaultProject pid bid dateStr now).content
        = [{ id := bid, type := .sceneHeading, content := "INT. LIVING ROOM - DAY" }] :=
  ⟨rfl, rfl, rfl, rfl⟩

/-- C4 counterexample: when the remote list call fails with a transport
error, the engine does not fall back to the nonempty local cache — the
`catch` only logs, so the collection stays empty. -/
theorem initialLoad_error_drops_cache :
    (initialLoad (.error "network unavailable") [sampleProject]
        (makeDefaultProject "d1" "db1" "1/1/2024" "2024-01-01T00:00:00.000Z")).projects
      ≠ [sampleProject] := by
  decide

/-- C4 (amended): when the remote list call fails with a transport error,
the engine performs no fallback at all — the load error is swallowed, the
collection stays empty with no active project, nothing is pushed to the
remote store, and the loading state still transitions to ready. -/
theorem initialLoad_error_state (msg : String) (localCache : List ScriptProject)
    (d : ScriptProject) :
    initialLoad (.error msg) localCache d
      = { projects := [], activeId := none, loading := false } := rfl

/-- A second sample block. -/
def sampleBlock2 : ScriptBlock := { id := "b2", type := .dialogue, content := "Hello." }

/-- A sample project with two blocks. -/
def sampleProjectTwoBlocks : ScriptProject :=
  { sampleProject with id := "p3", content := [sampleBlock, sampleBlock2] }

/-- A second sample project (distinct id, one block). -/
def sampleProjectB : ScriptProject := { sampleProject with id := "p2" }

/-- A sample engine state holding two projects with the first active. -/
def engineSample : EngineState :=
  { projects := [sampleProject, sampleProjectB]
    activeId := some "p1"
    saveStatus := .saved }

theorem insertAfterId_append (newId : String) (after : ScriptBlock)
    (pre post : List ScriptBlock) (hpre : ∀ b ∈ pre, b.id ≠ after.id) :
    insertAfterId newId after.id (pre ++ after :: post)
      = pre ++ after :: { id := newId, type := nextType after.type, content := "" } :: post := by
  induction pre with
  | nil => simp [insertAfterId]
  | cons b rest ih =>
    have hb : b.id ≠ after.id := hpre b (List.mem_cons_self b rest)
    have hbeq : (b.id == after.id) = false := beq_eq_false_iff_ne.mpr hb
    simp only [List.cons_append, insertAfterId, hbeq, Bool.false_eq_true, if_false]
    exact congrArg (b :: ·) (ih fun c hc => hpre c (List.mem_cons_of_mem _ hc))

/-- C5: when `afterId` is present, `addBlockAfter` places a fresh block with
empty content immediately after the first block carrying `afterId`, typed by
the successor policy of that block's type; and the policy table reads
scene-heading to action, character to dialogue, parenthetical to dialogue,
dialogue to character, transition to scene-heading, and action and shot to
action. -/
theorem addBlockAfter_inserts (now newId : String) (p : ScriptProject)
    (pre post : List ScriptBlock) (after : ScriptBlock)
    (hsplit : p.content = pre ++ after :: post)
    (hpre : ∀ b ∈ pre, b.id ≠ after.id) :
    (addBlockAfter now newId after.id p).content
        = pre ++ after :: { id := newId, type := nextType after.type, content := "" } :: post
    ∧ nextType .sceneHeading = .action
    ∧ nextType .character = .dialogue
    ∧ nextType .parenthetical = .dialogue
    ∧ nextType .dialogue = .character
    ∧ nextType .transition = .sceneHeading
    ∧ nextType .action = .action
    ∧ nextType .shot = .action := by
  refine ⟨?_, rfl, rfl, rfl, rfl, rfl, rfl, rfl⟩
  have hany : (p.content.any fun b => b.id == after.id) = true := by
    rw [hsplit]
    refine List.any_eq_true.mpr ⟨after, ?_, ?_⟩
    · exact List.mem_append_right _ (List.mem_cons_self _ _)
    · exact beq_self_eq_true after.id
  unfold addBlockAfter
  rw [hany, if_pos rfl]
  show insertAfterId newId after.id p.content = _
  rw [hsplit]
  exact insertAfterId_append newId after pre post hpre

theorem addBlockAfter_inserts_witness :
    (addBlockAfter "2024-01-02T00:00:00.000Z" "nb1" sampleBlock.id sampleProjectTwoBlocks).content
        = [] ++ sampleBlock
            :: { id := "nb1", type := nextType sampleBlock.type, content := "" }
            :: [sampleBlock2]
    ∧ nextType .sceneHeading = .action
    ∧ nextType .character = .dialogue
    ∧ nextType .parenthetical = .dialogue
    ∧ nextType .dialogue = .character
    ∧ nextType .transition = .sceneHeading
    ∧ nextType .action = .action
    ∧ nextType .shot = .action :=
  addBlockAfter_inserts "2024-01-02T00:00:00.000Z" "nb1" sampleProjectTwoBlocks
    [] [sampleBlock2] sampleBlock rfl (by decide)

theorem debounceSteps_quiet (delayMs : Nat) (a : ScriptProject) (prev : Nat)
    (events : List (Nat × ScriptProject))
    (h : withinQuiet delayMs prev events = true) :
    debounceSteps delayMs (some (prev + delayMs, a)) events
      = [(events.getLastD (prev, a)).2] := by
  induction events generalizing prev a with
  | nil => rfl
  | cons e rest ih =>
    obtain ⟨t, a2⟩ := e
    simp only [withinQuiet, Bool.and_eq_true, decide_eq_true_eq] at h
    obtain ⟨⟨hle, hlt⟩, hrest⟩ := h
    simp only [debounceSteps, if_neg (by omega : ¬ prev + delayMs ≤ t)]
    rw [ih a2 t hrest, List.getLastD_cons]

/-- C6: a burst of edits to the active project all landing inside the quiet
window yields exactly one dispatched upsert, whose payload is the state
after the last edit: every event before the pending timer fires cancels and
reschedules it. -/
theorem debounce_coalesces (delayMs t0 : Nat) (a0 : ScriptProject)
    (rest : List (Nat × ScriptProject))
    (h : withinQuiet delayMs t0 rest = true) :
    debounceRun delayMs ((t0, a0) :: rest) = [(rest.getLastD (t0, a0)).2] := by
  unfold debounceRun
  simp only [debounceSteps]
  exact debounceSteps_quiet delayMs a0 t0 rest h

theorem debounce_coalesces_witness :
    debounceRun 1000
        [(0, sampleProjectTwoBlocks), (500, sampleProject), (900, sampleProjectTwoBlocks)]
      = [([(500, sampleProject), (900, sampleProjectTwoBlocks)].getLastD
            (0, sampleProjectTwoBlocks)).2] :=
  debounce_coalesces 1000 0 sampleProjectTwoBlocks
    [(500, sampleProject), (900, sampleProjectTwoBlocks)] (by decide)

/-- C7 counterexample: deleting the active project while the remote `remove`
fails leaves the awaited promise rejected and unhandled, and the save status
untouched (here still `saved`) — the failure is not reported as a
save-status error. -/
theorem delete_remote_failure_status_unchanged :
    (deleteCurrentProject engineSample true false).rejectionUnhandled = true
    ∧ (deleteCurrentProject engineSample true false).state.saveStatus = SaveStatus.saved
    ∧ (deleteCurrentProject engineSample true false).state.saveStatus ≠ SaveStatus.error := by
  decide

/-- C7 (amended): deleting the active project (after confirmation) removes
it from the in-memory collection, dispatches an immediate remote remove for
its id, never touches the save status (success or failure alike — a failed
remove is not rolled back, and the rejection is simply unhandled), sets the
active selection to none when every project carried the deleted id, and
otherwise to the first remaining project's id, which is a member of the
remaining collection. -/
theorem deleteCurrentProject_spec (st : EngineState) (removeOk : Bool)
    (a : ScriptProject) (ha : activeProject st = some a) :
    (deleteCurrentProject st true removeOk).state.projects
        = st.projects.filter (fun p => p.id != a.id)
    ∧ (deleteCurrentProject st true removeOk).removeDispatched = some a.id
    ∧ (deleteCurrentProject st true removeOk).state.saveStatus = st.saveStatus
    ∧ ((∀ p ∈ st.projects, p.id = a.id) →
        (deleteCurrentProject st true removeOk).state.activeId = none)
    ∧ (∀ q, st.projects.find? (fun p => p.id != a.id) = some q → q.id ≠ "" →
        (deleteCurrentProject st true removeOk).state.activeId = some q.id
        ∧ q ∈ (deleteCurrentProject st true removeOk).state.projects) := by
  unfold deleteCurrentProject
  rw [ha]
  refine ⟨rfl, rfl, rfl, ?_, ?_⟩
  · intro hall
    have hnone : st.projects.find? (fun p => p.id != a.id) = none :=
      List.find?_eq_none.mpr fun p hp => by simp [hall p hp]
    show (match st.projects.find? (fun p => p.id != a.id) with
          | some p => if p.id = "" then none else some p.id
          | none => none) = none
    rw [hnone]
  · intro q hq hq0
    constructor
    · show (match st.projects.find? (fun p => p.id != a.id) with
            | some p => if p.id = "" then none else some p.id
            | none => none) = some q.id
      rw [hq]
      exact if_neg hq0
    · show q ∈ st.projects.filter (fun p => p.id != a.id)
      have hpq := List.find?_some hq
      exact List.mem_filter.mpr ⟨List.mem_of_find?_eq_some hq, hpq⟩

theorem deleteCurrentProject_spec_witness :
    (deleteCurrentProject engineSample true false).state.projects
        = engineSample.projects.filter (fun p => p.id != sampleProject.id)
    ∧ (deleteCurrentProject engineSample true false).removeDispatched = some sampleProject.id
    ∧ (deleteCurrentProject engineSample true false).state.saveStatus
        = engineSample.saveStatus
    ∧ (deleteCurrentProject engineSample true false).state.activeId = some sampleProjectB.id
    ∧ sampleProjectB ∈ (deleteCurrentProject engineSample true false).state.projects := by
  have h := deleteCurrentProject_spec engineSample false sampleProject (by decide)
  have h5 := h.2.2.2.2 sampleProjectB (by decide) (by decide)
  exact ⟨h.1, h.2.1, h.2.2.1, h5.1, h5.2⟩

/-- C8 counterexample: updating the title leaves `lastModifiedISO` exactly
as it was — the timestamp is not stamped to a fresh value. -/
theorem updateMetadataTitle_keeps_timestamp :
    (updateMetadataTitle "NEW TITLE" sampleProject).metadata.title = "NEW TITLE"
    ∧ (updateMetadataTitle "NEW TITLE" sampleProject).lastModifiedISO
        = sampleProject.lastModifiedISO := by
  decide

/-- C8 (amended): the title edit replaces exactly the `title` metadata
field; every other metadata field, the id, the block sequence and
`lastModifiedISO` are unchanged. -/
theorem updateMetadataTitle_spec (v : String) (p : ScriptProject) :
    (updateMetadataTitle v p).metadata.title = v
    ∧ (updateMetadataTitle v p).metadata.author = p.metadata.author
    ∧ (updateMetadataTitle v p).metadata.draftDate = p.metadata.draftDate
    ∧ (updateMetadataTitle v p).metadata.country = p.metadata.country
    ∧ (updateMetadataTitle v p).metadata.logline = p.metadata.logline
    ∧ (updateMetadataTitle v p).id = p.id
    ∧ (updateMetadataTitle v p).content = p.content
    ∧ (updateMetadataTitle v p).lastModifiedISO = p.lastModifiedISO :=
  ⟨rfl, rfl, rfl, rfl, rfl, rfl, rfl, rfl⟩

/-- C9: with the assist feature flag off, `runAI` resolves to the disabled
result and issues no network call, whatever the request and whatever the
network would have answered. -/
theorem runAI_flag_off (net : AIRequest → FetchOutcome) (req : AIRequest) :
    runAI false net req
      = (.ok { text := "AI is disabled in this environment.", disabled := true }, []) := rfl

theorem blockType_roundtrip (t : BlockType) :
    blockTypeOfString (blockTypeString t) = some t := by
  cases t <;> rfl

theorem country_roundtrip (c : CountryContext) :
    countryOfString (countryString c) = some c := by
  cases c <;> rfl

theorem decodeBlock_encodeBlock (b : ScriptBlock) :
    decodeBlock (encodeBlock b) = some b := by
  obtain ⟨i, t, c⟩ := b
  cases t <;> rfl

theorem decodeBlocks_map (l : List ScriptBlock) :
    decodeBlocks (l.map encodeBlock) = some l := by
  induction l with
  | nil => rfl
  | cons b rest ih => simp [decodeBlocks, decodeBlock_encodeBlock, ih]

theorem decodeMetadata_encodeMetadata (m : ScriptMetadata) :
    decodeMetadata (encodeMetadata m) = some m := by
  obtain ⟨ti, au, dr, co, lo⟩ := m
  cases co <;> cases lo <;> rfl

theorem decodeProject_encodeProject (p : ScriptProject) :
    decodeProject (encodeProject p) = some p := by
  obtain ⟨i, m, content, lm⟩ := p
  rw [show decodeProject (encodeProject ⟨i, m, content, lm⟩)
      = (match decodeMetadata (encodeMetadata m),
              decodeBlocks (List.map encodeBlock content) with
         | some m2, some bs => some (⟨i, m2, bs, lm⟩ : ScriptProject)
         | _, _ => none) from rfl]
  rw [decodeMetadata_encodeMetadata, decodeBlocks_map]

theorem decodeProjects_map (l : List ScriptProject) :
    decodeProjects (l.map encodeProject) = some l := by
  induction l with
  | nil => rfl
  | cons p rest ih => simp [decodeProjects, decodeProject_encodeProject, ih]

/-- C10: the local-cache round trip — after `saveProjects ps`, a store that
returns the last written payload makes `loadProjects` give back exactly
`ps`. -/
theorem loadProjects_saveProjects (st : Store) (ps : List ScriptProject) :
    loadProjects (saveProjects st ps) = ps := by
  simp [loadProjects, saveProjects, decodeProjects_map]

end Omenka
